import Mathlib

/-!
Verification of the O2Physics analysis task `femtoUniverseDebugPhi`
(src/PWGCF/FemtoUniverse/Tasks/femtoUniverseDebugPhi.cxx).

The task reads a joined particle table, slices it per collision to the
Phi-tagged candidate rows, fills an event QA histogram once per call and,
for each well-linked Phi candidate, fills one QA histogram for the
candidate and one for each of its two children located at table positions
(index - 2) and (index - 1).

The embedding is a shallow one: the table is a `List` of rows, the
`process` callback is a pure function producing an ordered trace of
observable effects (histogram fills, warnings, and an explicit
out-of-bounds marker standing for the undefined behaviour of
`iteratorAt` on an invalid position).
-/

namespace FemtoUniverseDebugPhi

/-- Modelled from the spec: particle-type tags of
`aod::femtouniverseparticle::ParticleType` (FemtoDerived.h is not part of
the source fragment).  Only the comparisons against `kPhi` and `kPhiChild`
matter to the task; the concrete numerals are placeholders for two
distinct `uint8_t` tag values. -/
def kPhi : Nat := 5

/-- Modelled from the spec: the tag of a Phi-decay child row; see `kPhi`. -/
def kPhiChild : Nat := 6

/-- Modelled from the spec: one row of the joined
`FDParticles`/`FDExtParticles` table.  Real-valued kinematic columns are
represented as integers because the task never computes with them: they
are only carried opaquely into histogram fills.  The child global-index
list of a Phi candidate has exactly two entries, so it is a pair. -/
structure FDParticle where
  globalIndex : Int
  fdCollisionId : Int
  partType : Nat
  cut : Nat
  pidcut : Nat
  pt : Int
  eta : Int
  phi : Int
  tempFitVar : Int
  hasChildren : Bool
  childrenIds : Int × Int
deriving DecidableEq, Repr

/-- Modelled from the spec: one row of the `FDCollision` table.  Event
level fields are carried opaquely into the event histogram fill. -/
structure FDCollision where
  globalIndex : Int
  posZ : Int
  multV0M : Int
  sphericity : Int
  magField : Int
deriving DecidableEq, Repr

/-- Binning specification of one `ConfigurableAxis`
(bin count, lower edge, upper edge); edges are rationals standing for the
configured floating-point values, which the task never computes with. -/
structure AxisSpec where
  nBins : Nat
  lo : ℚ
  hi : ℚ
deriving DecidableEq, Repr

/-- The task's configurables (`ConfPhigroup` and `ConfChildGroup` in the
source), with the source's member names. -/
structure Config where
  ConfPDGCodePhi : Int
  ConfCutPhi : Nat
  ConfPhiTempFitVarBins : AxisSpec
  ConfPhiTempFitVarpTBins : AxisSpec
  ConfPDGCodeChildPos : Int
  ConfPDGCodeChildNeg : Int
  ConfCutChildPos : Nat
  ConfCutChildNeg : Nat
  ConfChildPosPidnSigmaMax : ℚ
  ConfChildNegPidnSigmaMax : ℚ
  ConfChildPosIndex : Int
  ConfChildNegIndex : Int
  ConfChildPIDnSigmaMax : List ℚ
  ConfChildnSpecies : Int
  ConfChildTempFitVarBins : AxisSpec
  ConfChildTempFitVarpTBins : AxisSpec
deriving DecidableEq, Repr

/-- The default values of all configurables, as declared in the source. -/
def defaultConfig : Config where
  ConfPDGCodePhi := 3122
  ConfCutPhi := 338
  ConfPhiTempFitVarBins := ⟨300, 0.95, 1⟩
  ConfPhiTempFitVarpTBins := ⟨20, 0.5, 4.05⟩
  ConfPDGCodeChildPos := 2212
  ConfPDGCodeChildNeg := 211
  ConfCutChildPos := 150
  ConfCutChildNeg := 149
  ConfChildPosPidnSigmaMax := 3
  ConfChildNegPidnSigmaMax := 3
  ConfChildPosIndex := 1
  ConfChildNegIndex := 0
  ConfChildPIDnSigmaMax := [4, 3]
  ConfChildnSpecies := 2
  ConfChildTempFitVarBins := ⟨300, -0.15, 0.15⟩
  ConfChildTempFitVarpTBins := ⟨20, 0.5, 4.05⟩

/-- `partsOne->sliceByCached(fdCollisionId, col.globalIndex(), cache)`:
the rows of the table whose type tag is `kPhi` (the `partsOne`
partition) and whose owning collision is `colId`, each keeping its
position in the full table (`part.index()` of a partitioned row refers to
the underlying table). -/
def sliceByCached (parts : List FDParticle) (colId : Int) :
    List (Nat × FDParticle) :=
  parts.enum.filter fun ip =>
    ip.2.partType == kPhi && ip.2.fdCollisionId == colId

/-- `parts.iteratorAt(i)` for a possibly negative position `i`: the row at
position `i` when `0 ≤ i < parts.length`, and `none` where the C++ access
would be out of bounds (undefined behaviour in the source). -/
def iteratorAt (parts : List FDParticle) (i : Int) : Option FDParticle :=
  if i < 0 then none else parts[i.toNat]?

/-- What the loop body does with one Phi candidate at table position `i`. -/
inductive CandOutcome where
  /-- `!part.has_children()`: the row is skipped silently. -/
  | skipped : CandOutcome
  /-- A child lookup at position `i - 2` or `i - 1` is out of bounds. -/
  | crashed : CandOutcome
  /-- A child's global index disagrees with the recorded child-index
  list: one warning is logged and the candidate is skipped. -/
  | warned : CandOutcome
  /-- Both children found but at least one type tag is not `kPhiChild`:
  nothing is filled, nothing is logged. -/
  | rejected : CandOutcome
  /-- All checks pass: the three particle histograms are filled. -/
  | filled (posChild negChild : FDParticle) : CandOutcome
deriving DecidableEq, Repr

/-- The loop body of `process` for the candidate `part` at table position
`i`, translated check for check from lines 93-111 of the source. -/
def candOutcome (parts : List FDParticle) (i : Nat) (part : FDParticle) :
    CandOutcome :=
  if part.hasChildren = false then .skipped
  else
    match iteratorAt parts ((i : Int) - 2), iteratorAt parts ((i : Int) - 1) with
    | some posChild, some negChild =>
      if posChild.globalIndex ≠ part.childrenIds.1 ∨
          negChild.globalIndex ≠ part.childrenIds.2 then .warned
      else if posChild.partType = kPhiChild ∧ negChild.partType = kPhiChild then
        .filled posChild negChild
      else .rejected
    | _, _ => .crashed

/-- One observable effect of the `process` callback. -/
inductive FillEvent where
  /-- `eventHisto.fillQA(col)`. -/
  | fillEvent (col : FDCollision) : FillEvent
  /-- `PhiHistos.fillQA(part)` for the candidate at table position `i`. -/
  | fillPhi (i : Nat) (part : FDParticle) : FillEvent
  /-- `posChildHistos.fillQA(posChild)` for the row at position `i`. -/
  | fillPosChild (i : Int) (posChild : FDParticle) : FillEvent
  /-- `negChildHistos.fillQA(negChild)` for the row at position `i`. -/
  | fillNegChild (i : Int) (negChild : FDParticle) : FillEvent
  /-- `LOG(warn)` emitted for the candidate at table position `i`. -/
  | warnMismatch (i : Nat) : FillEvent
  /-- Out-of-bounds `iteratorAt` for the candidate at position `i`
  (undefined behaviour in the source, made explicit here). -/
  | outOfBounds (i : Nat) : FillEvent
deriving DecidableEq, Repr

/-- The effects contributed by one candidate of the per-collision loop. -/
def candEvents (parts : List FDParticle) (i : Nat) (part : FDParticle) :
    List FillEvent :=
  match candOutcome parts i part with
  | .skipped => []
  | .crashed => [.outOfBounds i]
  | .warned => [.warnMismatch i]
  | .rejected => []
  | .filled posChild negChild =>
      [.fillPhi i part, .fillPosChild ((i : Int) - 2) posChild,
       .fillNegChild ((i : Int) - 1) negChild]

/-- The `process` callback (lines 88-113 of the source): slice the
Phi partition to this collision, fill the event histogram once, then run
the candidate loop.  The configurables are in scope in the source but,
with the cut-bitmask and PID checks commented out, the body never reads
them.  The result is the ordered trace of observable effects. -/
def process (cfg : Config) (col : FDCollision) (parts : List FDParticle) :
    List FillEvent :=
  let groupPartsOne := sliceByCached parts col.globalIndex
  FillEvent.fillEvent col ::
    groupPartsOne.flatMap fun ip => candEvents parts ip.1 ip.2

/-- The event-histogram fills of a trace. -/
def eventFills (tr : List FillEvent) : List FDCollision :=
  tr.filterMap fun e =>
    match e with
    | .fillEvent col => some col
    | _ => none

/-- The Phi-histogram fills of a trace, as (table position, row) pairs. -/
def phiFills (tr : List FillEvent) : List (Nat × FDParticle) :=
  tr.filterMap fun e =>
    match e with
    | .fillPhi i part => some (i, part)
    | _ => none

/-- The positive-child-histogram fills of a trace. -/
def posChildFills (tr : List FillEvent) : List (Int × FDParticle) :=
  tr.filterMap fun e =>
    match e with
    | .fillPosChild i p => some (i, p)
    | _ => none

/-- The negative-child-histogram fills of a trace. -/
def negChildFills (tr : List FillEvent) : List (Int × FDParticle) :=
  tr.filterMap fun e =>
    match e with
    | .fillNegChild i p => some (i, p)
    | _ => none

/-- The table positions of the candidates a warning was logged for. -/
def warnPositions (tr : List FillEvent) : List Nat :=
  tr.filterMap fun e =>
    match e with
    | .warnMismatch i => some i
    | _ => none

/-- Whether an effect is the out-of-bounds marker. -/
def isOutOfBounds : FillEvent → Bool
  | .outOfBounds _ => true
  | _ => false

/-- Whether the loop body fills the histograms for this candidate. -/
def fillsHistos (parts : List FDParticle) (ip : Nat × FDParticle) : Bool :=
  match candOutcome parts ip.1 ip.2 with
  | .filled _ _ => true
  | _ => false

/-- The positive child recorded by a `filled` outcome (the row itself
otherwise; only applied to candidates that fill). -/
def posChildOf (parts : List FDParticle) (ip : Nat × FDParticle) : FDParticle :=
  match candOutcome parts ip.1 ip.2 with
  | .filled posChild _ => posChild
  | _ => ip.2

/-- The negative child recorded by a `filled` outcome; see `posChildOf`. -/
def negChildOf (parts : List FDParticle) (ip : Nat × FDParticle) : FDParticle :=
  match candOutcome parts ip.1 ip.2 with
  | .filled _ negChild => negChild
  | _ => ip.2

/-- Whether the loop body logs a warning for this candidate. -/
def warnsCandidate (parts : List FDParticle) (ip : Nat × FDParticle) : Bool :=
  match candOutcome parts ip.1 ip.2 with
  | .warned => true
  | _ => false

/-! ### Trace projections distribute over trace concatenation -/

theorem eventFills_append (a b : List FillEvent) :
    eventFills (a ++ b) = eventFills a ++ eventFills b :=
  List.filterMap_append a b _

theorem phiFills_append (a b : List FillEvent) :
    phiFills (a ++ b) = phiFills a ++ phiFills b :=
  List.filterMap_append a b _

theorem posChildFills_append (a b : List FillEvent) :
    posChildFills (a ++ b) = posChildFills a ++ posChildFills b :=
  List.filterMap_append a b _

theorem negChildFills_append (a b : List FillEvent) :
    negChildFills (a ++ b) = negChildFills a ++ negChildFills b :=
  List.filterMap_append a b _

theorem warnPositions_append (a b : List FillEvent) :
    warnPositions (a ++ b) = warnPositions a ++ warnPositions b :=
  List.filterMap_append a b _

/-! ### What one candidate contributes to each projection -/

theorem eventFills_candEvents (parts : List FDParticle) (ip : Nat × FDParticle) :
    eventFills (candEvents parts ip.1 ip.2) = [] := by
  rcases hc : candOutcome parts ip.1 ip.2 with _ | _ | _ | _ | ⟨pc, nc⟩ <;>
    simp [candEvents, eventFills, hc]

theorem phiFills_candEvents (parts : List FDParticle) (ip : Nat × FDParticle) :
    phiFills (candEvents parts ip.1 ip.2)
      = if fillsHistos parts ip then [ip] else [] := by
  rcases hc : candOutcome parts ip.1 ip.2 with _ | _ | _ | _ | ⟨pc, nc⟩ <;>
    simp [candEvents, phiFills, fillsHistos, hc]

theorem posChildFills_candEvents (parts : List FDParticle) (ip : Nat × FDParticle) :
    posChildFills (candEvents parts ip.1 ip.2)
      = if fillsHistos parts ip
          then [((ip.1 : Int) - 2, posChildOf parts ip)] else [] := by
  rcases hc : candOutcome parts ip.1 ip.2 with _ | _ | _ | _ | ⟨pc, nc⟩ <;>
    simp [candEvents, posChildFills, fillsHistos, posChildOf, hc]

theorem negChildFills_candEvents (parts : List FDParticle) (ip : Nat × FDParticle) :
    negChildFills (candEvents parts ip.1 ip.2)
      = if fillsHistos parts ip
          then [((ip.1 : Int) - 1, negChildOf parts ip)] else [] := by
  rcases hc : candOutcome parts ip.1 ip.2 with _ | _ | _ | _ | ⟨pc, nc⟩ <;>
    simp [candEvents, negChildFills, fillsHistos, negChildOf, hc]

theorem warnPositions_candEvents (parts : List FDParticle) (ip : Nat × FDParticle) :
    warnPositions (candEvents parts ip.1 ip.2)
      = if warnsCandidate parts ip then [ip.1] else [] := by
  rcases hc : candOutcome parts ip.1 ip.2 with _ | _ | _ | _ | ⟨pc, nc⟩ <;>
    simp [candEvents, warnPositions, warnsCandidate, hc]

/-! ### The projections of the whole candidate loop -/

theorem eventFills_flatMap (parts : List FDParticle)
    (group : List (Nat × FDParticle)) :
    eventFills (group.flatMap fun ip => candEvents parts ip.1 ip.2) = [] := by
  induction group with
  | nil => rfl
  | cons ip rest ih =>
    rw [List.flatMap_cons, eventFills_append, ih, eventFills_candEvents]
    rfl

theorem phiFills_flatMap (parts : List FDParticle)
    (group : List (Nat × FDParticle)) :
    phiFills (group.flatMap fun ip => candEvents parts ip.1 ip.2)
      = group.filter (fillsHistos parts) := by
  induction group with
  | nil => rfl
  | cons ip rest ih =>
    rw [List.flatMap_cons, phiFills_append, ih, phiFills_candEvents,
      List.filter_cons]
    by_cases h : fillsHistos parts ip <;> simp [h]

theorem posChildFills_flatMap (parts : List FDParticle)
    (group : List (Nat × FDParticle)) :
    posChildFills (group.flatMap fun ip => candEvents parts ip.1 ip.2)
      = (group.filter (fillsHistos parts)).map
          (fun ip => ((ip.1 : Int) - 2, posChildOf parts ip)) := by
  induction group with
  | nil => rfl
  | cons ip rest ih =>
    rw [List.flatMap_cons, posChildFills_append, ih, posChildFills_candEvents,
      List.filter_cons]
    by_cases h : fillsHistos parts ip <;> simp [h]

theorem negChildFills_flatMap (parts : List FDParticle)
    (group : List (Nat × FDParticle)) :
    negChildFills (group.flatMap fun ip => candEvents parts ip.1 ip.2)
      = (group.filter (fillsHistos parts)).map
          (fun ip => ((ip.1 : Int) - 1, negChildOf parts ip)) := by
  induction group with
  | nil => rfl
  | cons ip rest ih =>
    rw [List.flatMap_cons, negChildFills_append, ih, negChildFills_candEvents,
      List.filter_cons]
    by_cases h : fillsHistos parts ip <;> simp [h]

theorem warnPositions_flatMap (parts : List FDParticle)
    (group : List (Nat × FDParticle)) :
    warnPositions (group.flatMap fun ip => candEvents parts ip.1 ip.2)
      = (group.filter (warnsCandidate parts)).map Prod.fst := by
  induction group with
  | nil => rfl
  | cons ip rest ih =>
    rw [List.flatMap_cons, warnPositions_append, ih, warnPositions_candEvents,
      List.filter_cons]
    by_cases h : warnsCandidate parts ip <;> simp [h]

/-! ### The projections of a whole `process` trace -/

theorem eventFills_process (cfg : Config) (col : FDCollision)
    (parts : List FDParticle) :
    eventFills (process cfg col parts) = [col] := by
  show col :: eventFills ((sliceByCached parts col.globalIndex).flatMap
    fun ip => candEvents parts ip.1 ip.2) = [col]
  rw [eventFills_flatMap]

theorem phiFills_process (cfg : Config) (col : FDCollision)
    (parts : List FDParticle) :
    phiFills (process cfg col parts)
      = (sliceByCached parts col.globalIndex).filter (fillsHistos parts) := by
  show phiFills ((sliceByCached parts col.globalIndex).flatMap
    fun ip => candEvents parts ip.1 ip.2) = _
  exact phiFills_flatMap parts _

theorem posChildFills_process (cfg : Config) (col : FDCollision)
    (parts : List FDParticle) :
    posChildFills (process cfg col parts)
      = ((sliceByCached parts col.globalIndex).filter (fillsHistos parts)).map
          (fun ip => ((ip.1 : Int) - 2, posChildOf parts ip)) := by
  show posChildFills ((sliceByCached parts col.globalIndex).flatMap
    fun ip => candEvents parts ip.1 ip.2) = _
  exact posChildFills_flatMap parts _

theorem negChildFills_process (cfg : Config) (col : FDCollision)
    (parts : List FDParticle) :
    negChildFills (process cfg col parts)
      = ((sliceByCached parts col.globalIndex).filter (fillsHistos parts)).map
          (fun ip => ((ip.1 : Int) - 1, negChildOf parts ip)) := by
  show negChildFills ((sliceByCached parts col.globalIndex).flatMap
    fun ip => candEvents parts ip.1 ip.2) = _
  exact negChildFills_flatMap parts _

theorem warnPositions_process (cfg : Config) (col : FDCollision)
    (parts : List FDParticle) :
    warnPositions (process cfg col parts)
      = ((sliceByCached parts col.globalIndex).filter
          (warnsCandidate parts)).map Prod.fst := by
  show warnPositions ((sliceByCached parts col.globalIndex).flatMap
    fun ip => candEvents parts ip.1 ip.2) = _
  exact warnPositions_flatMap parts _

/-! ### Table positions in the candidate slice are distinct and in bounds -/

theorem slice_sublist_enum (parts : List FDParticle) (colId : Int) :
    List.Sublist (sliceByCached parts colId) parts.enum :=
  List.filter_sublist parts.enum

theorem slice_map_fst_sublist (parts : List FDParticle) (colId : Int) :
    List.Sublist ((sliceByCached parts colId).map Prod.fst)
      (List.range parts.length) := by
  have h := (slice_sublist_enum parts colId).map Prod.fst
  rwa [List.enum_map_fst] at h

theorem slice_map_fst_nodup (parts : List FDParticle) (colId : Int) :
    ((sliceByCached parts colId).map Prod.fst).Nodup :=
  (slice_map_fst_sublist parts colId).nodup (List.nodup_range _)

theorem slice_filter_map_fst_nodup (parts : List FDParticle) (colId : Int)
    (p : Nat × FDParticle → Bool) :
    (((sliceByCached parts colId).filter p).map Prod.fst).Nodup :=
  ((List.filter_sublist _).map Prod.fst).nodup (slice_map_fst_nodup parts colId)

theorem mem_slice_lt (parts : List FDParticle) (colId : Int)
    (ip : Nat × FDParticle) (h : ip ∈ sliceByCached parts colId) :
    ip.1 < parts.length := by
  have h1 : ip.1 ∈ (sliceByCached parts colId).map Prod.fst :=
    List.mem_map_of_mem Prod.fst h
  exact List.mem_range.mp ((slice_map_fst_sublist parts colId).subset h1)

theorem slice_fst_inj (parts : List FDParticle) (colId : Int)
    {ip jp : Nat × FDParticle} (hi : ip ∈ sliceByCached parts colId)
    (hj : jp ∈ sliceByCached parts colId) (hfst : ip.1 = jp.1) : ip = jp :=
  List.inj_on_of_nodup_map (slice_map_fst_nodup parts colId) hi hj hfst

/-- The map `n ↦ (n : ℤ) - 2` on positions is injective. -/
theorem shiftTwo_injective :
    Function.Injective (fun n : Nat => (n : Int) - 2) := by
  intro a b h
  have h2 : (a : Int) - 2 = (b : Int) - 2 := h
  omega

/-- The map `n ↦ (n : ℤ) - 1` on positions is injective. -/
theorem shiftOne_injective :
    Function.Injective (fun n : Nat => (n : Int) - 1) := by
  intro a b h
  have h2 : (a : Int) - 1 = (b : Int) - 1 := h
  omega

theorem phiFills_map_fst_nodup (cfg : Config) (col : FDCollision)
    (parts : List FDParticle) :
    ((phiFills (process cfg col parts)).map Prod.fst).Nodup := by
  rw [phiFills_process]
  exact slice_filter_map_fst_nodup parts col.globalIndex _

theorem posChildFills_map_fst_nodup (cfg : Config) (col : FDCollision)
    (parts : List FDParticle) :
    ((posChildFills (process cfg col parts)).map Prod.fst).Nodup := by
  rw [posChildFills_process, List.map_map]
  have h := (slice_filter_map_fst_nodup parts col.globalIndex
    (fillsHistos parts)).map shiftTwo_injective
  rwa [List.map_map] at h

theorem negChildFills_map_fst_nodup (cfg : Config) (col : FDCollision)
    (parts : List FDParticle) :
    ((negChildFills (process cfg col parts)).map Prod.fst).Nodup := by
  rw [negChildFills_process, List.map_map]
  have h := (slice_filter_map_fst_nodup parts col.globalIndex
    (fillsHistos parts)).map shiftOne_injective
  rwa [List.map_map] at h

/-- A member of a duplicate-free list is counted exactly once. -/
theorem count_eq_one_of_nodup_mem {α : Type} [BEq α] [LawfulBEq α]
    {l : List α} {x : α} (hn : l.Nodup) (hx : x ∈ l) : l.count x = 1 := by
  induction l with
  | nil => simp at hx
  | cons a l ih =>
    rcases List.mem_cons.mp hx with rfl | hx
    · rw [List.count_cons_self, List.count_eq_zero.mpr (List.nodup_cons.mp hn).1]
    · have hne : x ≠ a := fun h => (List.nodup_cons.mp hn).1 (h ▸ hx)
      rw [List.count_cons_of_ne hne, ih (List.nodup_cons.mp hn).2 hx]

/-- In a list of fill records whose positions are distinct, any member is
counted exactly once. -/
theorem count_eq_one_of_map_fst_nodup {α β : Type} [BEq (α × β)]
    [LawfulBEq (α × β)] {l : List (α × β)} {x : α × β}
    (hn : (l.map Prod.fst).Nodup) (hx : x ∈ l) : l.count x = 1 :=
  count_eq_one_of_nodup_mem (List.Nodup.of_map Prod.fst hn) hx

/-! ### Deciding the outcome of one candidate from the row's fields -/

theorem candOutcome_eq_skipped (parts : List FDParticle) (i : Nat)
    (part : FDParticle) (hchild : part.hasChildren = false) :
    candOutcome parts i part = .skipped := by
  rw [candOutcome, if_pos hchild]

theorem candOutcome_eq_filled (parts : List FDParticle) (i : Nat)
    (part posChild negChild : FDParticle)
    (hchild : part.hasChildren = true)
    (hpos : iteratorAt parts ((i : Int) - 2) = some posChild)
    (hneg : iteratorAt parts ((i : Int) - 1) = some negChild)
    (hid1 : posChild.globalIndex = part.childrenIds.1)
    (hid2 : negChild.globalIndex = part.childrenIds.2)
    (ht1 : posChild.partType = kPhiChild)
    (ht2 : negChild.partType = kPhiChild) :
    candOutcome parts i part = .filled posChild negChild := by
  rw [candOutcome, if_neg (by simp [hchild]), hpos, hneg]
  simp [hid1, hid2, ht1, ht2]

theorem candOutcome_eq_warned (parts : List FDParticle) (i : Nat)
    (part posChild negChild : FDParticle)
    (hchild : part.hasChildren = true)
    (hpos : iteratorAt parts ((i : Int) - 2) = some posChild)
    (hneg : iteratorAt parts ((i : Int) - 1) = some negChild)
    (hmis : posChild.globalIndex ≠ part.childrenIds.1 ∨
      negChild.globalIndex ≠ part.childrenIds.2) :
    candOutcome parts i part = .warned := by
  rw [candOutcome, if_neg (by simp [hchild]), hpos, hneg]
  exact if_pos hmis

theorem candOutcome_ne_crashed (parts : List FDParticle) (i : Nat)
    (part posChild negChild : FDParticle)
    (hpos : iteratorAt parts ((i : Int) - 2) = some posChild)
    (hneg : iteratorAt parts ((i : Int) - 1) = some negChild) :
    candOutcome parts i part ≠ .crashed := by
  rw [candOutcome]
  by_cases hch : part.hasChildren = false
  · simp [hch]
  · rw [if_neg hch, hpos, hneg]
    by_cases h1 : posChild.globalIndex ≠ part.childrenIds.1 ∨
        negChild.globalIndex ≠ part.childrenIds.2
    · simp [h1]
    · by_cases h2 : posChild.partType = kPhiChild ∧ negChild.partType = kPhiChild
      · simp [h1, h2]
      · simp [h1, h2]

theorem isOutOfBounds_candEvents_false (parts : List FDParticle) (i : Nat)
    (part : FDParticle) (h : candOutcome parts i part ≠ .crashed) :
    ∀ e ∈ candEvents parts i part, isOutOfBounds e = false := by
  intro e he
  rw [candEvents] at he
  rcases hc : candOutcome parts i part with _ | _ | _ | _ | ⟨pc, nc⟩ <;>
    rw [hc] at he
  · simp at he
  · exact absurd hc h
  · simp at he
    simp [he, isOutOfBounds]
  · simp at he
  · simp at he
    rcases he with he | he | he <;> simp [he, isOutOfBounds]

/-! ### Claim theorems -/

/-- C1: for every Phi-tagged row of the per-collision candidate slice
whose child-presence flag is set, whose presumed children at table
positions (position - 2) and (position - 1) have global indices equal to
the two entries of the candidate's recorded child-index list, and whose
two presumed children both carry the type tag PhiChild, `process`
performs exactly one fill on each of the three particle histograms: the
Phi histogram with the candidate row, the positive-child histogram with
the row at position - 2, and the negative-child histogram with the row
at position - 1. -/
theorem C1_matched_candidate_fills_each_histogram_once
    (cfg : Config) (col : FDCollision) (parts : List FDParticle) (i : Nat)
    (part posChild negChild : FDParticle)
    (hmem : (i, part) ∈ sliceByCached parts col.globalIndex)
    (hchild : part.hasChildren = true)
    (hpos : iteratorAt parts ((i : Int) - 2) = some posChild)
    (hneg : iteratorAt parts ((i : Int) - 1) = some negChild)
    (hid1 : posChild.globalIndex = part.childrenIds.1)
    (hid2 : negChild.globalIndex = part.childrenIds.2)
    (ht1 : posChild.partType = kPhiChild)
    (ht2 : negChild.partType = kPhiChild) :
    (phiFills (process cfg col parts)).count (i, part) = 1 ∧
    (posChildFills (process cfg col parts)).count ((i : Int) - 2, posChild) = 1 ∧
    (negChildFills (process cfg col parts)).count ((i : Int) - 1, negChild) = 1 := by
  have hout := candOutcome_eq_filled parts i part posChild negChild hchild
    hpos hneg hid1 hid2 ht1 ht2
  have hfill : fillsHistos parts (i, part) = true := by
    simp [fillsHistos, hout]
  have hmemF : (i, part) ∈
      (sliceByCached parts col.globalIndex).filter (fillsHistos parts) :=
    List.mem_filter.mpr ⟨hmem, hfill⟩
  refine ⟨?_, ?_, ?_⟩
  · have hmm : (i, part) ∈ phiFills (process cfg col parts) := by
      rw [phiFills_process]
      exact hmemF
    exact count_eq_one_of_map_fst_nodup (phiFills_map_fst_nodup cfg col parts) hmm
  · have hmm : ((i : Int) - 2, posChild) ∈ posChildFills (process cfg col parts) := by
      rw [posChildFills_process]
      have h := List.mem_map_of_mem
        (fun ip => ((ip.1 : Int) - 2, posChildOf parts ip)) hmemF
      simpa [posChildOf, hout] using h
    exact count_eq_one_of_map_fst_nodup (posChildFills_map_fst_nodup cfg col parts) hmm
  · have hmm : ((i : Int) - 1, negChild) ∈ negChildFills (process cfg col parts) := by
      rw [negChildFills_process]
      have h := List.mem_map_of_mem
        (fun ip => ((ip.1 : Int) - 1, negChildOf parts ip)) hmemF
      simpa [negChildOf, hout] using h
    exact count_eq_one_of_map_fst_nodup (negChildFills_map_fst_nodup cfg col parts) hmm

/-- C2: for every Phi-tagged row of the slice with the child-presence flag
set whose presumed children exist but whose global indices disagree with
the recorded child-index list, `process` logs exactly one warning for that
candidate, fills no histogram for that row (the loop body contributes only
the warning, and no fill of the trace targets the candidate row or its two
presumed child positions), raises no error, and continues. -/
theorem C2_mismatched_candidate_warns_once_and_fills_nothing
    (cfg : Config) (col : FDCollision) (parts : List FDParticle) (i : Nat)
    (part posChild negChild : FDParticle)
    (hmem : (i, part) ∈ sliceByCached parts col.globalIndex)
    (hchild : part.hasChildren = true)
    (hpos : iteratorAt parts ((i : Int) - 2) = some posChild)
    (hneg : iteratorAt parts ((i : Int) - 1) = some negChild)
    (hmis : posChild.globalIndex ≠ part.childrenIds.1 ∨
      negChild.globalIndex ≠ part.childrenIds.2) :
    candEvents parts i part = [FillEvent.warnMismatch i] ∧
    (warnPositions (process cfg col parts)).count i = 1 ∧
    (∀ p : FDParticle, (i, p) ∉ phiFills (process cfg col parts)) ∧
    (∀ p : FDParticle, ((i : Int) - 2, p) ∉ posChildFills (process cfg col parts)) ∧
    (∀ p : FDParticle, ((i : Int) - 1, p) ∉ negChildFills (process cfg col parts)) := by
  have hout := candOutcome_eq_warned parts i part posChild negChild hchild
    hpos hneg hmis
  have hwarn : warnsCandidate parts (i, part) = true := by
    simp [warnsCandidate, hout]
  have hnofill : fillsHistos parts (i, part) = false := by
    simp [fillsHistos, hout]
  refine ⟨by simp [candEvents, hout], ?_, ?_, ?_, ?_⟩
  · rw [warnPositions_process]
    have hmm : i ∈ ((sliceByCached parts col.globalIndex).filter
        (warnsCandidate parts)).map Prod.fst :=
      List.mem_map_of_mem Prod.fst (List.mem_filter.mpr ⟨hmem, hwarn⟩)
    exact count_eq_one_of_nodup_mem
      (slice_filter_map_fst_nodup parts col.globalIndex _) hmm
  · intro p hp
    rw [phiFills_process] at hp
    obtain ⟨hpSlice, hpFill⟩ := List.mem_filter.mp hp
    have heq : ((i, p) : Nat × FDParticle) = (i, part) :=
      slice_fst_inj parts col.globalIndex hpSlice hmem rfl
    rw [heq, hnofill] at hpFill
    exact Bool.false_ne_true hpFill
  · intro p hp
    rw [posChildFills_process] at hp
    obtain ⟨jp, hjpF, hjpEq⟩ := List.mem_map.mp hp
    obtain ⟨hjpSlice, hjpFill⟩ := List.mem_filter.mp hjpF
    have hfst : jp.1 = i := by
      have h1 : (jp.1 : Int) - 2 = (i : Int) - 2 := congrArg Prod.fst hjpEq
      omega
    have heq : jp = (i, part) := slice_fst_inj parts col.globalIndex hjpSlice hmem hfst
    rw [heq, hnofill] at hjpFill
    exact Bool.false_ne_true hjpFill
  · intro p hp
    rw [negChildFills_process] at hp
    obtain ⟨jp, hjpF, hjpEq⟩ := List.mem_map.mp hp
    obtain ⟨hjpSlice, hjpFill⟩ := List.mem_filter.mp hjpF
    have hfst : jp.1 = i := by
      have h1 : (jp.1 : Int) - 1 = (i : Int) - 1 := congrArg Prod.fst hjpEq
      omega
    have heq : jp = (i, part) := slice_fst_inj parts col.globalIndex hjpSlice hmem hfst
    rw [heq, hnofill] at hjpFill
    exact Bool.false_ne_true hjpFill

/-- C3: on every invocation, also on a collision with zero Phi-tagged
rows, the event histogram is filled exactly once with the collision
record, as the first effect of the call; with an empty candidate slice no
candidate or child histogram is filled and no warning is logged. -/
theorem C3_event_histogram_always_filled_once
    (cfg : Config) (col : FDCollision) (parts : List FDParticle) :
    eventFills (process cfg col parts) = [col] ∧
    (process cfg col parts).head? = some (.fillEvent col) ∧
    (sliceByCached parts col.globalIndex = [] →
      phiFills (process cfg col parts) = [] ∧
      posChildFills (process cfg col parts) = [] ∧
      negChildFills (process cfg col parts) = [] ∧
      warnPositions (process cfg col parts) = []) := by
  refine ⟨eventFills_process cfg col parts, rfl, fun hempty => ?_⟩
  rw [phiFills_process, posChildFills_process, negChildFills_process,
    warnPositions_process, hempty]
  simp

/-- C4: for every Phi-tagged row of the slice whose child-presence flag is
unset, the loop body contributes no effect at all: no particle histogram
is filled for that row and no warning is logged. -/
theorem C4_unset_child_flag_skips_row
    (cfg : Config) (col : FDCollision) (parts : List FDParticle) (i : Nat)
    (part : FDParticle)
    (hmem : (i, part) ∈ sliceByCached parts col.globalIndex)
    (hchild : part.hasChildren = false) :
    candEvents parts i part = [] ∧
    i ∉ warnPositions (process cfg col parts) ∧
    (∀ p : FDParticle, (i, p) ∉ phiFills (process cfg col parts)) := by
  have hout := candOutcome_eq_skipped parts i part hchild
  have hnowarn : warnsCandidate parts (i, part) = false := by
    simp [warnsCandidate, hout]
  have hnofill : fillsHistos parts (i, part) = false := by
    simp [fillsHistos, hout]
  refine ⟨by simp [candEvents, hout], ?_, ?_⟩
  · intro h
    rw [warnPositions_process] at h
    obtain ⟨jp, hjpF, hfst⟩ := List.mem_map.mp h
    obtain ⟨hjpSlice, hjpWarn⟩ := List.mem_filter.mp hjpF
    have heq : jp = (i, part) := slice_fst_inj parts col.globalIndex hjpSlice hmem hfst
    rw [heq, hnowarn] at hjpWarn
    exact Bool.false_ne_true hjpWarn
  · intro p hp
    rw [phiFills_process] at hp
    obtain ⟨hpSlice, hpFill⟩ := List.mem_filter.mp hp
    have heq : ((i, p) : Nat × FDParticle) = (i, part) :=
      slice_fst_inj parts col.globalIndex hpSlice hmem rfl
    rw [heq, hnofill] at hpFill
    exact Bool.false_ne_true hpFill

/-- C9: the three particle histograms advance in lockstep: after any
single `process` call the Phi, positive-child and negative-child
histograms have received the same number of fills. -/
theorem C9_three_particle_histograms_lockstep
    (cfg : Config) (col : FDCollision) (parts : List FDParticle) :
    (phiFills (process cfg col parts)).length
      = (posChildFills (process cfg col parts)).length ∧
    (phiFills (process cfg col parts)).length
      = (negChildFills (process cfg col parts)).length := by
  rw [phiFills_process, posChildFills_process, negChildFills_process]
  constructor <;> rw [List.length_map]

/-- C5: the cut-bitmask and PID checks are inert.  Two runs of `process`
on the same collision and particle table whose configurations agree on
the PDG codes and binnings but may differ arbitrarily in the
selection-bit masks (ConfCutPhi, ConfCutChildPos, ConfCutChildNeg) and
the PID configurables produce the identical effect trace, hence the
identical set of histogram fills. -/
theorem C5_cut_and_pid_configurables_inert
    (cfg1 cfg2 : Config) (col : FDCollision) (parts : List FDParticle)
    (hpdgPhi : cfg1.ConfPDGCodePhi = cfg2.ConfPDGCodePhi)
    (hpdgPos : cfg1.ConfPDGCodeChildPos = cfg2.ConfPDGCodeChildPos)
    (hpdgNeg : cfg1.ConfPDGCodeChildNeg = cfg2.ConfPDGCodeChildNeg)
    (hbPhi : cfg1.ConfPhiTempFitVarBins = cfg2.ConfPhiTempFitVarBins)
    (hbPhipT : cfg1.ConfPhiTempFitVarpTBins = cfg2.ConfPhiTempFitVarpTBins)
    (hbChild : cfg1.ConfChildTempFitVarBins = cfg2.ConfChildTempFitVarBins)
    (hbChildpT : cfg1.ConfChildTempFitVarpTBins = cfg2.ConfChildTempFitVarpTBins) :
    process cfg1 col parts = process cfg2 col parts := rfl

/-- C6: the positional child lookup is in bounds only for candidates at
table position at least 2: for a candidate below position 2 the access at
(position - 2) is out of bounds, and under the precondition that every
candidate of the slice with the child-presence flag set sits at position
at least 2, both lookups return `some` and the trace carries no
out-of-bounds marker. -/
theorem C6_child_lookup_in_bounds_iff_position_ge_two
    (cfg : Config) (col : FDCollision) (parts : List FDParticle)
    (hpre : ∀ ip ∈ sliceByCached parts col.globalIndex,
      ip.2.hasChildren = true → 2 ≤ ip.1) :
    (∀ i : Nat, i < 2 → iteratorAt parts ((i : Int) - 2) = none) ∧
    (∀ ip ∈ sliceByCached parts col.globalIndex, ip.2.hasChildren = true →
      (iteratorAt parts ((ip.1 : Int) - 2)).isSome = true ∧
      (iteratorAt parts ((ip.1 : Int) - 1)).isSome = true) ∧
    (∀ e ∈ process cfg col parts, isOutOfBounds e = false) := by
  have hsome : ∀ ip ∈ sliceByCached parts col.globalIndex,
      ip.2.hasChildren = true →
      (iteratorAt parts ((ip.1 : Int) - 2)).isSome = true ∧
      (iteratorAt parts ((ip.1 : Int) - 1)).isSome = true := by
    intro ip hip hch
    have h2 := hpre ip hip hch
    have hlt := mem_slice_lt parts col.globalIndex ip hip
    constructor
    · rw [iteratorAt, if_neg (by omega)]
      have hk : ((ip.1 : Int) - 2).toNat < parts.length := by omega
      rw [List.getElem?_eq_getElem hk]
      rfl
    · rw [iteratorAt, if_neg (by omega)]
      have hk : ((ip.1 : Int) - 1).toNat < parts.length := by omega
      rw [List.getElem?_eq_getElem hk]
      rfl
  refine ⟨?_, hsome, ?_⟩
  · intro i hi
    rw [iteratorAt, if_pos (by omega)]
  · intro e he
    rcases List.mem_cons.mp he with rfl | he
    · rfl
    · obtain ⟨ip, hip, heCand⟩ := List.mem_flatMap.mp he
      by_cases hch : ip.2.hasChildren = true
      · obtain ⟨hs2, hs1⟩ := hsome ip hip hch
        obtain ⟨pc, hpc⟩ := Option.isSome_iff_exists.mp hs2
        obtain ⟨nc, hnc⟩ := Option.isSome_iff_exists.mp hs1
        exact isOutOfBounds_candEvents_false parts ip.1 ip.2
          (candOutcome_ne_crashed parts ip.1 ip.2 pc nc hpc hnc) e heCand
      · have hout := candOutcome_eq_skipped parts ip.1 ip.2
          (Bool.not_eq_true _ ▸ hch)
        rw [candEvents, hout] at heCand
        simp at heCand

/-! ### The histogram registries as explicit state -/

/-- The mutable contents of the two histogram registries
(`EventRegistry` and `PhiRegistry`) together with the warning log, in
fill order. -/
structure Registries where
  eventReg : List FDCollision
  phiReg : List (Nat × FDParticle)
  posChildReg : List (Int × FDParticle)
  negChildReg : List (Int × FDParticle)
  warnLog : List Nat
deriving DecidableEq, Repr

/-- Freshly initialized registries: no histogram has been filled. -/
def initialRegistries : Registries := ⟨[], [], [], [], []⟩

/-- Applying one observable effect to the registries. -/
def applyEvent (r : Registries) (e : FillEvent) : Registries :=
  match e with
  | .fillEvent col => { r with eventReg := r.eventReg ++ [col] }
  | .fillPhi i p => { r with phiReg := r.phiReg ++ [(i, p)] }
  | .fillPosChild i p => { r with posChildReg := r.posChildReg ++ [(i, p)] }
  | .fillNegChild i p => { r with negChildReg := r.negChildReg ++ [(i, p)] }
  | .warnMismatch i => { r with warnLog := r.warnLog ++ [i] }
  | .outOfBounds _ => r

/-- Running the `process` callback against registries in state `r`. -/
def runProcess (cfg : Config) (r : Registries) (col : FDCollision)
    (parts : List FDParticle) : Registries :=
  (process cfg col parts).foldl applyEvent r

/-- Folding a trace over `applyEvent` appends exactly the projections of
the trace to the corresponding registries. -/
theorem foldl_applyEvent (r : Registries) (tr : List FillEvent) :
    tr.foldl applyEvent r =
      ⟨r.eventReg ++ eventFills tr, r.phiReg ++ phiFills tr,
       r.posChildReg ++ posChildFills tr, r.negChildReg ++ negChildFills tr,
       r.warnLog ++ warnPositions tr⟩ := by
  induction tr generalizing r with
  | nil =>
    simp [eventFills, phiFills, posChildFills, negChildFills, warnPositions]
  | cons e tr ih =>
    rw [List.foldl_cons, ih]
    cases e <;>
      simp [applyEvent, eventFills, phiFills, posChildFills, negChildFills,
        warnPositions, List.filterMap_cons]

/-- C7: the task is deterministic per fixed input: running the callback
on identical (configuration, collision, particle-table) inputs from
freshly initialized registries yields identical registry contents. -/
theorem C7_process_deterministic_per_input
    (cfg1 cfg2 : Config) (col1 col2 : FDCollision)
    (parts1 parts2 : List FDParticle)
    (hcfg : cfg1 = cfg2) (hcol : col1 = col2) (hparts : parts1 = parts2) :
    runProcess cfg1 initialRegistries col1 parts1
      = runProcess cfg2 initialRegistries col2 parts2 := by
  rw [hcfg, hcol, hparts]

/-! ### The full per-call state for the frame property -/

/-- The state visible to one `process` call: the task's configuration and
registries together with the call's read-only inputs. -/
structure TaskWorld where
  cfg : Config
  registries : Registries
  col : FDCollision
  parts : List FDParticle
deriving DecidableEq, Repr

/-- One invocation of the callback on the world: the source mutates the
registries through the histogram delegates and reads everything else
through `const` references. -/
def processCall (w : TaskWorld) : TaskWorld :=
  { w with registries := runProcess w.cfg w.registries w.col w.parts }

/-- C10: `process` mutates only the histogram registries: the collision,
the particle table and the configuration are unchanged by the call, and
the registries change exactly by appending the histogram fills and, in
the mismatch case, the logged warnings of the call's trace. -/
theorem C10_process_mutates_only_registries (w : TaskWorld) :
    (processCall w).col = w.col ∧
    (processCall w).parts = w.parts ∧
    (processCall w).cfg = w.cfg ∧
    (processCall w).registries =
      ⟨w.registries.eventReg ++ eventFills (process w.cfg w.col w.parts),
       w.registries.phiReg ++ phiFills (process w.cfg w.col w.parts),
       w.registries.posChildReg ++ posChildFills (process w.cfg w.col w.parts),
       w.registries.negChildReg ++ negChildFills (process w.cfg w.col w.parts),
       w.registries.warnLog ++ warnPositions (process w.cfg w.col w.parts)⟩ :=
  ⟨rfl, rfl, rfl, foldl_applyEvent w.registries (process w.cfg w.col w.parts)⟩

/-! ### The histogram schema established at initialization -/

/-- Modelled from the spec: the schema with which
`FemtoUniverseParticleHisto::init` (header not in the source fragment)
registers one particle QA histogram: the two configured binnings, a
PDG-code label, a flag for extra debug histograms and a flag enabling an
additional histogram set. -/
structure ParticleHistoSchema where
  ptAxis : AxisSpec
  tempFitVarAxis : AxisSpec
  pdgLabel : Int
  isDebug : Bool
  correlatedPlots : Bool
deriving DecidableEq, Repr

/-- Modelled from the spec: `FemtoUniverseParticleHisto::init` records the
supplied binnings, PDG code and flags as the histogram schema. -/
def particleHistoInit (ptBins tempFitVarBins : AxisSpec) (isDebug : Bool)
    (pdg : Int) (correlated : Bool) : ParticleHistoSchema :=
  ⟨ptBins, tempFitVarBins, pdg, isDebug, correlated⟩

/-- The three particle-histogram schemas owned by the task. -/
structure TaskSchemas where
  posChildHistos : ParticleHistoSchema
  negChildHistos : ParticleHistoSchema
  PhiHistos : ParticleHistoSchema
deriving DecidableEq, Repr

/-- `init` (lines 79-85 of the source): each particle-histogram delegate
is initialized with the configured binning, the respective PDG code,
`false` for extra debug histograms and `true` for the additional
histogram set. -/
def init (cfg : Config) : TaskSchemas :=
  ⟨particleHistoInit cfg.ConfChildTempFitVarpTBins cfg.ConfChildTempFitVarBins
      false cfg.ConfPDGCodeChildPos true,
   particleHistoInit cfg.ConfChildTempFitVarpTBins cfg.ConfChildTempFitVarBins
      false cfg.ConfPDGCodeChildNeg true,
   particleHistoInit cfg.ConfPhiTempFitVarpTBins cfg.ConfPhiTempFitVarBins
      false cfg.ConfPDGCodePhi true⟩

/-- C8: for every configuration assignment, the histogram schema
established by `init` reflects the supplied values: the two child
histograms carry the child TempFitVar/pT binning and the respective child
PDG codes, the Phi histogram carries the Phi binning and the Phi PDG
code, and the fixed flags are `false` (no extra debug histograms) and
`true` (additional histogram set). -/
theorem C8_init_schema_reflects_configuration (cfg : Config) :
    ((init cfg).posChildHistos.ptAxis = cfg.ConfChildTempFitVarpTBins ∧
     (init cfg).posChildHistos.tempFitVarAxis = cfg.ConfChildTempFitVarBins ∧
     (init cfg).posChildHistos.pdgLabel = cfg.ConfPDGCodeChildPos) ∧
    ((init cfg).negChildHistos.ptAxis = cfg.ConfChildTempFitVarpTBins ∧
     (init cfg).negChildHistos.tempFitVarAxis = cfg.ConfChildTempFitVarBins ∧
     (init cfg).negChildHistos.pdgLabel = cfg.ConfPDGCodeChildNeg) ∧
    ((init cfg).PhiHistos.ptAxis = cfg.ConfPhiTempFitVarpTBins ∧
     (init cfg).PhiHistos.tempFitVarAxis = cfg.ConfPhiTempFitVarBins ∧
     (init cfg).PhiHistos.pdgLabel = cfg.ConfPDGCodePhi) ∧
    ((init cfg).posChildHistos.isDebug = false ∧
     (init cfg).posChildHistos.correlatedPlots = true ∧
     (init cfg).negChildHistos.isDebug = false ∧
     (init cfg).negChildHistos.correlatedPlots = true ∧
     (init cfg).PhiHistos.isDebug = false ∧
     (init cfg).PhiHistos.correlatedPlots = true) :=
  ⟨⟨rfl, rfl, rfl⟩, ⟨rfl, rfl, rfl⟩, ⟨rfl, rfl, rfl⟩,
   rfl, rfl, rfl, rfl, rfl, rfl⟩

/-! ### Concrete tables used to witness the claim theorems -/

/-- A collision with global index 7. -/
def colEx : FDCollision := ⟨7, 0, 0, 0, 0⟩

/-- A positive Phi child at table position 0, global index 10. -/
def posEx : FDParticle := ⟨10, 7, kPhiChild, 0, 0, 0, 0, 0, 0, false, (0, 0)⟩

/-- A negative Phi child at table position 1, global index 11. -/
def negEx : FDParticle := ⟨11, 7, kPhiChild, 0, 0, 0, 0, 0, 0, false, (0, 0)⟩

/-- A well-linked Phi candidate at table position 2, recording its
children's global indices 10 and 11. -/
def phiEx : FDParticle := ⟨12, 7, kPhi, 0, 0, 0, 0, 0, 0, true, (10, 11)⟩

/-- A Phi candidate whose recorded first child index (99) disagrees with
the global index of the row at position 0. -/
def phiMisEx : FDParticle := ⟨12, 7, kPhi, 0, 0, 0, 0, 0, 0, true, (99, 11)⟩

/-- A Phi candidate whose child-presence flag is unset. -/
def phiNoChildEx : FDParticle := ⟨12, 7, kPhi, 0, 0, 0, 0, 0, 0, false, (0, 0)⟩

/-- A table holding one well-linked Phi candidate and its two children. -/
def partsEx : List FDParticle := [posEx, negEx, phiEx]

/-- A table holding one Phi candidate with a child-index mismatch. -/
def partsMisEx : List FDParticle := [posEx, negEx, phiMisEx]

/-- A table holding only a Phi candidate without children. -/
def partsNoChildEx : List FDParticle := [phiNoChildEx]

/-- A table with no Phi-tagged row at all. -/
def partsNoPhiEx : List FDParticle := [posEx]

/-- A configuration that differs from the defaults in every cut-bitmask
and PID configurable and in nothing else. -/
def altConfig : Config :=
  { defaultConfig with
      ConfCutPhi := 0, ConfCutChildPos := 1, ConfCutChildNeg := 2,
      ConfChildPosPidnSigmaMax := 9, ConfChildNegPidnSigmaMax := 9,
      ConfChildPosIndex := 7, ConfChildNegIndex := 8,
      ConfChildPIDnSigmaMax := [1], ConfChildnSpecies := 1 }

/-! ### Witnesses -/

/-- Witness for C1 on the concrete three-row table. -/
theorem C1_witness :
    ((2, phiEx) ∈ sliceByCached partsEx colEx.globalIndex ∧
     phiEx.hasChildren = true ∧
     iteratorAt partsEx (((2 : Nat) : Int) - 2) = some posEx ∧
     iteratorAt partsEx (((2 : Nat) : Int) - 1) = some negEx ∧
     posEx.globalIndex = phiEx.childrenIds.1 ∧
     negEx.globalIndex = phiEx.childrenIds.2 ∧
     posEx.partType = kPhiChild ∧ negEx.partType = kPhiChild) ∧
    ((phiFills (process defaultConfig colEx partsEx)).count (2, phiEx) = 1 ∧
     (posChildFills (process defaultConfig colEx partsEx)).count
       (((2 : Nat) : Int) - 2, posEx) = 1 ∧
     (negChildFills (process defaultConfig colEx partsEx)).count
       (((2 : Nat) : Int) - 1, negEx) = 1) :=
  ⟨⟨by decide, by decide, by decide, by decide, by decide, by decide,
    by decide, by decide⟩,
   C1_matched_candidate_fills_each_histogram_once defaultConfig colEx partsEx
     2 phiEx posEx negEx (by decide) (by decide) (by decide) (by decide)
     (by decide) (by decide) (by decide) (by decide)⟩

/-- Witness for C2 on the concrete mismatched table. -/
theorem C2_witness :
    ((2, phiMisEx) ∈ sliceByCached partsMisEx colEx.globalIndex ∧
     phiMisEx.hasChildren = true ∧
     iteratorAt partsMisEx (((2 : Nat) : Int) - 2) = some posEx ∧
     iteratorAt partsMisEx (((2 : Nat) : Int) - 1) = some negEx ∧
     posEx.globalIndex ≠ phiMisEx.childrenIds.1) ∧
    (candEvents partsMisEx 2 phiMisEx = [FillEvent.warnMismatch 2] ∧
     (warnPositions (process defaultConfig colEx partsMisEx)).count 2 = 1) :=
  ⟨⟨by decide, by decide, by decide, by decide, by decide⟩,
   (C2_mismatched_candidate_warns_once_and_fills_nothing defaultConfig colEx
      partsMisEx 2 phiMisEx posEx negEx (by decide) (by decide) (by decide)
      (by decide) (Or.inl (by decide))).1,
   (C2_mismatched_candidate_warns_once_and_fills_nothing defaultConfig colEx
      partsMisEx 2 phiMisEx posEx negEx (by decide) (by decide) (by decide)
      (by decide) (Or.inl (by decide))).2.1⟩

/-- Witness for C3 on a table with no Phi-tagged row. -/
theorem C3_witness :
    eventFills (process defaultConfig colEx partsNoPhiEx) = [colEx] ∧
    (process defaultConfig colEx partsNoPhiEx).head?
      = some (.fillEvent colEx) ∧
    phiFills (process defaultConfig colEx partsNoPhiEx) = [] ∧
    posChildFills (process defaultConfig colEx partsNoPhiEx) = [] ∧
    negChildFills (process defaultConfig colEx partsNoPhiEx) = [] ∧
    warnPositions (process defaultConfig colEx partsNoPhiEx) = [] := by
  have h := C3_event_histogram_always_filled_once defaultConfig colEx partsNoPhiEx
  have h2 := h.2.2 (by decide)
  exact ⟨h.1, h.2.1, h2.1, h2.2.1, h2.2.2.1, h2.2.2.2⟩

/-- Witness for C4 on a Phi candidate with the child flag unset. -/
theorem C4_witness :
    ((0, phiNoChildEx) ∈ sliceByCached partsNoChildEx colEx.globalIndex ∧
     phiNoChildEx.hasChildren = false) ∧
    (candEvents partsNoChildEx 0 phiNoChildEx = [] ∧
     0 ∉ warnPositions (process defaultConfig colEx partsNoChildEx)) :=
  ⟨⟨by decide, by decide⟩,
   (C4_unset_child_flag_skips_row defaultConfig colEx partsNoChildEx 0
      phiNoChildEx (by decide) (by decide)).1,
   (C4_unset_child_flag_skips_row defaultConfig colEx partsNoChildEx 0
      phiNoChildEx (by decide) (by decide)).2.1⟩

/-- Witness for C5: the default configuration and one differing in every
cut-bitmask and PID configurable drive the identical trace. -/
theorem C5_witness :
    (defaultConfig.ConfPDGCodePhi = altConfig.ConfPDGCodePhi ∧
     defaultConfig.ConfPDGCodeChildPos = altConfig.ConfPDGCodeChildPos ∧
     defaultConfig.ConfPDGCodeChildNeg = altConfig.ConfPDGCodeChildNeg ∧
     defaultConfig.ConfPhiTempFitVarBins = altConfig.ConfPhiTempFitVarBins ∧
     defaultConfig.ConfPhiTempFitVarpTBins = altConfig.ConfPhiTempFitVarpTBins ∧
     defaultConfig.ConfChildTempFitVarBins = altConfig.ConfChildTempFitVarBins ∧
     defaultConfig.ConfChildTempFitVarpTBins = altConfig.ConfChildTempFitVarpTBins ∧
     defaultConfig.ConfCutPhi ≠ altConfig.ConfCutPhi) ∧
    process defaultConfig colEx partsEx = process altConfig colEx partsEx :=
  ⟨⟨rfl, rfl, rfl, rfl, rfl, rfl, rfl, by decide⟩,
   C5_cut_and_pid_configurables_inert defaultConfig altConfig colEx partsEx
     rfl rfl rfl rfl rfl rfl rfl⟩

/-- Witness for C6 on the concrete three-row table, whose only candidate
with children sits at position 2. -/
theorem C6_witness :
    (∀ ip ∈ sliceByCached partsEx colEx.globalIndex,
      ip.2.hasChildren = true → 2 ≤ ip.1) ∧
    (∀ e ∈ process defaultConfig colEx partsEx, isOutOfBounds e = false) :=
  ⟨by decide,
   (C6_child_lookup_in_bounds_iff_position_ge_two defaultConfig colEx partsEx
      (by decide)).2.2⟩

/-- Witness for C7 at a concrete input. -/
theorem C7_witness :
    runProcess defaultConfig initialRegistries colEx partsEx
      = runProcess defaultConfig initialRegistries colEx partsEx :=
  C7_process_deterministic_per_input defaultConfig defaultConfig colEx colEx
    partsEx partsEx rfl rfl rfl

end FemtoUniverseDebugPhi
